import Mathlib

/-! gfxlib fixed point: the Q16 instantiation of `FixedPoint<int32_t, 16>`.

Shallow embedding of `gfxlib/include/gfxlib/fixed_point.hpp` for
`q16_traits = FixedPoint<int32_t, 16>`.

A raw value (`int32_t`) is an `Int` in `[-2^31, 2^31)`.  The header states
"THIS CODE ASSUMES TWO'S COMPLEMENT", so every operation that can leave the
32-bit range is reduced back into it by `wrap` (the value modulo `2^32`, read
as signed), and the bitwise operators act on the 32-bit two's-complement bit
pattern of their operands.
-/

namespace gfxlib

/-! ## 32-bit two's-complement machine arithmetic -/

/-- Reinterpret an integer as a 32-bit two's-complement value. -/
def wrap (x : Int) : Int := (x + 2 ^ 31) % 2 ^ 32 - 2 ^ 31

/-- A value the storage type `int32_t` can hold. -/
def is_raw (v : Int) : Prop := -2 ^ 31 ≤ v ∧ v < 2 ^ 31

instance (v : Int) : Decidable (is_raw v) := by
  unfold is_raw; infer_instance

/-- The unsigned 32-bit pattern of a signed value. -/
def toBits (x : Int) : Nat := (x % 2 ^ 32).toNat

/-- The signed value of an unsigned 32-bit pattern. -/
def ofBits (n : Nat) : Int := if n < 2 ^ 31 then (n : Int) else (n : Int) - 2 ^ 32

/-- Bitwise and of two `int32_t` values (`a & b`). -/
def band (a b : Int) : Int := ofBits (toBits a &&& toBits b)

/-- Bitwise or of two `int32_t` values (`a | b`). -/
def bor (a b : Int) : Int := ofBits (toBits a ||| toBits b)

/-- Bitwise complement of an `int32_t` value (`~a`). -/
def bnot (a : Int) : Int := -a - 1

/-- Left shift `a << k`, the result reduced to 32 bits. -/
def shl (a : Int) (k : Nat) : Int := wrap (a * 2 ^ k)

/-- Arithmetic (sign-extending) right shift `a >> k`. -/
def shr (a : Int) (k : Nat) : Int := a >>> k

/-- Unary minus `-a` on `int32_t`. -/
def neg (a : Int) : Int := wrap (-a)

/-- The function `std::signbit` on an integer argument: true exactly for negative values. -/
def signbit (a : Int) : Bool := decide (a < 0)

/-! ## `FixedPoint<int32_t, 16>` -/

/-- The constant `std::numeric_limits<int32_t>::digits`. -/
def raw_digits : Nat := 31

/-- Template argument `FracBits`. -/
def fractional_bits : Nat := 16

def integer_bits : Nat := raw_digits - fractional_bits

def integer_bits_with_sign : Nat := integer_bits + 1

def max_integer : Int := wrap (shl 1 integer_bits - 1)

def min_integer : Int := wrap (-max_integer - 1)

def max_fractional : Int := wrap (shl 1 fractional_bits - 1)

def min_fractional : Int := wrap (-max_fractional - 1)

def sign_mask : Int := shl 1 raw_digits

def integer_mask : Int := bnot (shl 1 fractional_bits - 1)

def fractional_mask : Int := bor (shl 1 fractional_bits - 1) sign_mask

/-- Member `integer(val)`: `val >> fractional_bits`. -/
def integer (val : Int) : Int := shr val fractional_bits

/-- Member `fractional(val)`: `((val << integer_bits) | sign) >> integer_bits`. -/
def fractional (val : Int) : Int :=
  let sign := if signbit val then sign_mask else 0
  shr (bor (shl val integer_bits) sign) integer_bits

/-- Member `from_parts(integer, fractional)`. -/
def from_parts (integer fractional : Int) : Int :=
  let intsign := signbit integer
  let fracsign := signbit fractional
  let sign := if intsign != fracsign then true else intsign
  let integer := if intsign != sign then neg integer else integer
  let fractional := if fracsign != sign then neg fractional else fractional
  let n :=
    if integer > max_integer then max_integer
    else if integer < min_integer then min_integer
    else integer
  let n := shl n fractional_bits
  if fractional > max_fractional then bor n (band max_fractional fractional_mask)
  else if fractional < min_fractional then bor n (band min_fractional fractional_mask)
  else bor n (band fractional fractional_mask)

/-- Member `from_integer(val)`: `from_parts(val, 0)`. -/
def from_integer (val : Int) : Int := from_parts val 0

/-- The local `sign` of `from_parts`: negative when the signs of the parts differ, the
shared sign otherwise. -/
def from_parts_sign (integer fractional : Int) : Bool :=
  let intsign := signbit integer
  let fracsign := signbit fractional
  if intsign != fracsign then true else intsign

/-- Unary minus on `int32_t` with the overflow made explicit: negating the minimum storage
value has no result. -/
def neg_checked (a : Int) : Option Int := if a = -2 ^ 31 then none else some (-a)

/-- Member `from_parts(integer, fractional)` with both negations overflow-checked. -/
def from_parts_checked (integer fractional : Int) : Option Int := do
  let intsign := signbit integer
  let fracsign := signbit fractional
  let sign := if intsign != fracsign then true else intsign
  let integer ← if intsign != sign then neg_checked integer else some integer
  let fractional ← if fracsign != sign then neg_checked fractional else some fractional
  let n :=
    if integer > max_integer then max_integer
    else if integer < min_integer then min_integer
    else integer
  let n := shl n fractional_bits
  if fractional > max_fractional then some (bor n (band max_fractional fractional_mask))
  else if fractional < min_fractional then some (bor n (band min_fractional fractional_mask))
  else some (bor n (band fractional fractional_mask))

/-! ## Configurations `FixedPoint<TRaw, FracBits>` -/

/-- The constant `std::numeric_limits<TRaw>::digits` of a signed integer type of the given
width in bits: the number of non-sign bits. -/
def digits_of (storage_width : Nat) : Int := (storage_width : Int) - 1

/-- The constant `integer_bits = raw_limits::digits - fractional_bits`, computed in `int`. -/
def integer_bits_of (storage_width frac_bits : Nat) : Int :=
  digits_of storage_width - (frac_bits : Int)

/-- Whether `static_assert(integer_bits >= 1, ...)` passes for a signed storage type of the
given width. -/
def config_accepted (storage_width frac_bits : Nat) : Bool :=
  decide (integer_bits_of storage_width frac_bits ≥ 1)

/-! ## Saturating arithmetic -/

/-- Modelled from the spec: the largest value of the storage type, `max_raw`
(`raw_limits::max()` for `int32_t`). -/
def max_raw : Int := 2 ^ 31 - 1

/-- Modelled from the spec: the smallest value of the storage type, `min_raw`
(`raw_limits::min()` for `int32_t`). -/
def min_raw : Int := -2 ^ 31

/-- Modelled from the spec: the body of `sadd`, which the header only declares. The sum is
taken in a wider accumulator; above `max_raw` it saturates to `max_raw`, below `min_raw` to
`min_raw`, otherwise it is returned exactly. -/
def sadd (a b : Int) : Int :=
  let sum := a + b
  if sum > max_raw then max_raw
  else if sum < min_raw then min_raw
  else sum

/-! ## Bit-level lemmas on natural numbers -/

theorem or_two_pow_of_lt (k p : Nat) (h : p < 2 ^ k) : p ||| 2 ^ k = p + 2 ^ k := by
  have := Nat.mul_add_lt_is_or h 1
  rw [Nat.mul_one] at this
  rw [Nat.or_comm, ← this, Nat.add_comm]

theorem or_two_pow_of_ge (k p : Nat) (h : 2 ^ k ≤ p) (h2 : p < 2 ^ (k + 1)) :
    p ||| 2 ^ k = p := by
  have hq : p - 2 ^ k < 2 ^ k := by rw [Nat.pow_succ] at h2; omega
  have := Nat.mul_add_lt_is_or hq 1
  rw [Nat.mul_one] at this
  have hp : p = 2 ^ k ||| (p - 2 ^ k) := by rw [← this]; omega
  rw [hp, Nat.or_comm, ← Nat.or_assoc, Nat.or_self]

theorem and_two_pow_of_lt (k p : Nat) (h : p < 2 ^ k) : p &&& 2 ^ k = 0 := by
  apply Nat.eq_of_testBit_eq
  intro i
  rw [Nat.testBit_and, Nat.testBit_two_pow, Nat.zero_testBit]
  by_cases hi : k = i
  · subst hi; simp [Nat.testBit_lt_two_pow h]
  · simp [hi]

theorem and_two_pow_of_ge (k p : Nat) (h : 2 ^ k ≤ p) (h2 : p < 2 ^ (k + 1)) :
    p &&& 2 ^ k = 2 ^ k := by
  have hq : p - 2 ^ k < 2 ^ k := by rw [Nat.pow_succ] at h2; omega
  have hp : p = 2 ^ k + (p - 2 ^ k) := by omega
  apply Nat.eq_of_testBit_eq
  intro i
  rw [Nat.testBit_and, Nat.testBit_two_pow]
  by_cases hi : k = i
  · subst hi
    rw [hp, Nat.testBit_two_pow_add_eq, Nat.testBit_lt_two_pow hq]; simp
  · simp [hi]

theorem and_split (a b c d : Nat) (hb : b < 2 ^ 16) (hd : d < 2 ^ 16) :
    (2 ^ 16 * a + b) &&& (2 ^ 16 * c + d) = 2 ^ 16 * (a &&& c) + (b &&& d) := by
  have hbd : b &&& d < 2 ^ 16 := Nat.and_lt_two_pow b hd
  apply Nat.eq_of_testBit_eq
  intro j
  rw [Nat.testBit_and, Nat.testBit_mul_pow_two_add a hb, Nat.testBit_mul_pow_two_add c hd,
    Nat.testBit_mul_pow_two_add _ hbd]
  by_cases hj : j < 16 <;> simp [hj]

theorem or_split (a b c d : Nat) (hb : b < 2 ^ 16) (hd : d < 2 ^ 16) :
    (2 ^ 16 * a + b) ||| (2 ^ 16 * c + d) = 2 ^ 16 * (a ||| c) + (b ||| d) := by
  have hbd : b ||| d < 2 ^ 16 := Nat.or_lt_two_pow hb hd
  apply Nat.eq_of_testBit_eq
  intro j
  rw [Nat.testBit_or, Nat.testBit_mul_pow_two_add a hb, Nat.testBit_mul_pow_two_add c hd,
    Nat.testBit_mul_pow_two_add _ hbd]
  by_cases hj : j < 16 <;> simp [hj]

/-! ## Arithmetic form of the 32-bit operators -/

theorem toBits_cast (x : Int) : ((toBits x : Nat) : Int) = x % 2 ^ 32 := by
  unfold toBits
  exact Int.toNat_of_nonneg (Int.emod_nonneg _ (by norm_num))

theorem toBits_lt (x : Int) : toBits x < 2 ^ 32 := by
  have h := toBits_cast x
  omega

theorem bor_zero (x : Int) (hx : is_raw x) : bor x 0 = x := by
  unfold is_raw at hx
  have h := toBits_cast x
  have h0 : toBits 0 = 0 := by decide
  unfold bor ofBits
  rw [h0, Nat.or_zero]
  split <;> omega

theorem bor_sign_mask (x : Int) (hx : is_raw x) :
    bor x sign_mask = if x < 0 then x else x - 2 ^ 31 := by
  unfold is_raw at hx
  have h := toBits_cast x
  have h0 : toBits sign_mask = 2 ^ 31 := by decide
  unfold bor ofBits
  rw [h0]
  by_cases hneg : x < 0
  · rw [or_two_pow_of_ge 31 (toBits x) (by omega) (by omega), if_pos hneg]
    split <;> omega
  · rw [or_two_pow_of_lt 31 (toBits x) (by omega), if_neg hneg]
    split <;> omega

theorem band_fractional_mask (x : Int) (hx : is_raw x) :
    band x fractional_mask = if x < 0 then x % 2 ^ 16 - 2 ^ 31 else x % 2 ^ 16 := by
  unfold is_raw at hx
  have h := toBits_cast x
  have hm : toBits fractional_mask = 2 ^ 16 * 2 ^ 15 + (2 ^ 16 - 1) := by decide
  have hp : toBits x = 2 ^ 16 * (toBits x / 2 ^ 16) + toBits x % 2 ^ 16 :=
    (Nat.div_add_mod _ _).symm
  have hlo : toBits x % 2 ^ 16 < 2 ^ 16 := Nat.mod_lt _ (by norm_num)
  unfold band ofBits
  rw [hm, hp, and_split _ _ _ _ hlo (by norm_num),
    Nat.and_pow_two_sub_one_of_lt_two_pow hlo]
  by_cases hneg : x < 0
  · rw [and_two_pow_of_ge 15 _ (by omega) (by omega), if_pos hneg]
    split <;> omega
  · rw [and_two_pow_of_lt 15 _ (by omega), if_neg hneg]
    split <;> omega

theorem bor_high_low (n m : Int) (hn : is_raw n) (hn0 : n % 2 ^ 16 = 0)
    (hm : (0 ≤ m ∧ m < 2 ^ 16) ∨ (-2 ^ 31 ≤ m ∧ m < -2 ^ 31 + 2 ^ 16)) :
    bor n m = if 0 ≤ m then n + m else if n < 0 then n + m + 2 ^ 31 else n + m := by
  unfold is_raw at hn
  have h := toBits_cast n
  have h2 := toBits_cast m
  have hp : toBits n = 2 ^ 16 * (toBits n / 2 ^ 16) + 0 := by omega
  unfold bor ofBits
  rcases hm with hm | hm
  · have hq : toBits m = 2 ^ 16 * 0 + toBits m := by omega
    rw [hp, hq, or_split _ _ _ _ (by norm_num) (by omega), Nat.or_zero, Nat.zero_or,
      if_pos hm.1]
    split <;> omega
  · have hq : toBits m = 2 ^ 16 * 2 ^ 15 + (toBits m - 2 ^ 31) := by omega
    rw [hp, hq, or_split _ _ _ _ (by norm_num) (by omega), Nat.zero_or,
      if_neg (show ¬ (0 ≤ m) by omega)]
    by_cases hneg : n < 0
    · rw [or_two_pow_of_ge 15 _ (by omega) (by omega), if_pos hneg]
      split <;> omega
    · rw [or_two_pow_of_lt 15 _ (by omega), if_neg hneg]
      split <;> omega

/-! ## Arithmetic form of the members -/

theorem wrap_of_is_raw (x : Int) (hx : is_raw x) : wrap x = x := by
  unfold is_raw at hx
  unfold wrap
  omega

theorem integer_eq (v : Int) : integer v = v / 2 ^ 16 := by
  unfold integer shr fractional_bits
  exact Int.shiftRight_eq_div_pow v 16

theorem fractional_eq (v : Int) :
    fractional v =
      if v < 0 ∨ v / 2 ^ 16 % 2 = 1 then v % 2 ^ 16 - 2 ^ 16 else v % 2 ^ 16 := by
  have hx : is_raw (wrap (v * 2 ^ 15)) := by
    unfold is_raw wrap; omega
  unfold fractional shr shl signbit
  have hib : integer_bits = 15 := rfl
  rw [hib, Int.shiftRight_eq_div_pow]
  by_cases hneg : v < 0
  · simp only [hneg, decide_True, if_true, true_or]
    rw [bor_sign_mask _ hx]
    unfold wrap
    split <;> omega
  · simp only [hneg, decide_False, if_false, false_or, Bool.false_eq_true]
    rw [bor_zero _ hx]
    unfold wrap
    split <;> omega

theorem assemble_eq (I F : Int) (hI : -2 ^ 15 ≤ I ∧ I < 2 ^ 15)
    (hF : -2 ^ 16 ≤ F ∧ F < 2 ^ 16) :
    bor (shl I fractional_bits) (band F fractional_mask) =
      if 0 ≤ F then I * 2 ^ 16 + F
      else if I < 0 then I * 2 ^ 16 + F + 2 ^ 16
      else I * 2 ^ 16 + F + 2 ^ 16 - 2 ^ 31 := by
  have hfb : fractional_bits = 16 := rfl
  have hn : shl I fractional_bits = I * 2 ^ 16 := by
    unfold shl wrap; rw [hfb]; omega
  have hFr : is_raw F := by unfold is_raw; omega
  have hnr : is_raw (I * 2 ^ 16) := by unfold is_raw; omega
  rw [hn, band_fractional_mask F hFr]
  by_cases hneg : F < 0
  · rw [if_pos hneg, bor_high_low _ _ hnr (by omega) (by omega)]
    split_ifs <;> omega
  · rw [if_neg hneg, bor_high_low _ _ hnr (by omega) (by omega)]
    split_ifs <;> omega

theorem consts_eq : max_integer = 2 ^ 15 - 1 ∧ min_integer = -2 ^ 15 ∧
    max_fractional = 2 ^ 16 - 1 ∧ min_fractional = -2 ^ 16 := by decide

theorem from_parts_eq (i f : Int) (hi : is_raw i) (hf : is_raw f) :
    from_parts i f =
      bor (shl (max (-2 ^ 15) (min (2 ^ 15 - 1) (if 0 ≤ i ∧ f < 0 then -i else i)))
          fractional_bits)
        (band (max (-2 ^ 16) (min (2 ^ 16 - 1) (if i < 0 ∧ 0 ≤ f then -f else f)))
          fractional_mask) := by
  obtain ⟨h1, h2, h3, h4⟩ := consts_eq
  unfold is_raw at hi hf
  unfold from_parts signbit neg
  rw [h1, h2, h3, h4]
  by_cases hin : i < 0 <;> by_cases hfn : f < 0 <;>
    simp only [hin, hfn, decide_True, decide_False, bne_self_eq_false, Bool.true_bne,
      Bool.false_bne, Bool.bne_true, Bool.bne_false, Bool.not_true, Bool.not_false,
      if_true, if_false, Bool.false_eq_true, and_true, and_false, true_and, false_and,
      not_lt, not_true, not_false_eq_true] <;>
    (try unfold wrap) <;> split_ifs <;> congr 2 <;> omega

theorem from_parts_closed (i f : Int) (hi : is_raw i) (hf : is_raw f) :
    from_parts i f =
      if 0 ≤ max (-2 ^ 16) (min (2 ^ 16 - 1) (if i < 0 ∧ 0 ≤ f then -f else f)) then
        max (-2 ^ 15) (min (2 ^ 15 - 1) (if 0 ≤ i ∧ f < 0 then -i else i)) * 2 ^ 16
          + max (-2 ^ 16) (min (2 ^ 16 - 1) (if i < 0 ∧ 0 ≤ f then -f else f))
      else if max (-2 ^ 15) (min (2 ^ 15 - 1) (if 0 ≤ i ∧ f < 0 then -i else i)) < 0 then
        max (-2 ^ 15) (min (2 ^ 15 - 1) (if 0 ≤ i ∧ f < 0 then -i else i)) * 2 ^ 16
          + max (-2 ^ 16) (min (2 ^ 16 - 1) (if i < 0 ∧ 0 ≤ f then -f else f)) + 2 ^ 16
      else
        max (-2 ^ 15) (min (2 ^ 15 - 1) (if 0 ≤ i ∧ f < 0 then -i else i)) * 2 ^ 16
          + max (-2 ^ 16) (min (2 ^ 16 - 1) (if i < 0 ∧ 0 ≤ f then -f else f)) + 2 ^ 16
          - 2 ^ 31 := by
  rw [from_parts_eq i f hi hf]
  exact assemble_eq _ _ (by omega) (by omega)

theorem testBit_sixteen (v : Int) : (toBits v).testBit 16 = true ↔ v / 2 ^ 16 % 2 = 1 := by
  have h := toBits_cast v
  rw [Nat.testBit_to_div_mod, decide_eq_true_iff]
  omega

/-! ## Claims -/

/-- C1: the round trip fails at the raw value 65536 (the number 1.0): its parts are read as
integer 1 and fractional -65536, and `from_parts 1 (-65536)` is -65536, not 65536. -/
theorem round_trip_at_one :
    is_raw 65536 ∧ integer 65536 = 1 ∧ fractional 65536 = -65536 ∧
      from_parts (integer 65536) (fractional 65536) = -65536 ∧
      from_parts (integer 65536) (fractional 65536) ≠ 65536 := by
  decide

/-- C2, as stated, fails at k = -1: `from_integer (-1)` has fractional part -65536, not 0. -/
theorem from_integer_neg_one_fractional :
    (min_integer ≤ -1 ∧ -1 ≤ max_integer) ∧ fractional (from_integer (-1)) = -65536 ∧
      ¬ (integer (from_integer (-1)) = -1 ∧ fractional (from_integer (-1)) = 0) := by
  decide

/-- C2 (amended): for every k in `[min_integer, max_integer]`, `from_integer k` has integer
part k; its fractional part is `min_fractional` when k is negative and 0 when k is
non-negative and even. -/
theorem from_integer_parts (k : Int) (hk : min_integer ≤ k ∧ k ≤ max_integer) :
    integer (from_integer k) = k ∧
      (k < 0 → fractional (from_integer k) = min_fractional) ∧
      (0 ≤ k → k % 2 = 0 → fractional (from_integer k) = 0) := by
  obtain ⟨h1, h2, -, h4⟩ := consts_eq
  rw [h1, h2] at hk
  have hr : is_raw k := by unfold is_raw; omega
  have h0 : is_raw 0 := by decide
  unfold from_integer
  rw [h4, integer_eq, fractional_eq, from_parts_closed k 0 hr h0]
  omega

/-- Witness for C2 (amended) at k = -3 and k = 4. -/
theorem from_integer_parts_witness :
    ((min_integer ≤ -3 ∧ -3 ≤ max_integer) ∧ integer (from_integer (-3)) = -3 ∧
        fractional (from_integer (-3)) = min_fractional) ∧
      ((min_integer ≤ 4 ∧ 4 ≤ max_integer) ∧ integer (from_integer 4) = 4 ∧
        fractional (from_integer 4) = 0) :=
  ⟨⟨by decide, (from_integer_parts (-3) (by decide)).1,
      (from_integer_parts (-3) (by decide)).2.1 (by decide)⟩,
    ⟨by decide, (from_integer_parts 4 (by decide)).1,
      (from_integer_parts 4 (by decide)).2.2 (by decide) (by decide)⟩⟩

/-- C3: integer saturation. For every 32-bit k above `max_integer`, `from_parts k 0` and
`from_integer k` are both `max_integer << 16`, whose integer part is `max_integer`; for every
32-bit k below `min_integer` (the minimum storage value included) both are the minimum raw
value, bit pattern 0x80000000, whose integer part is `min_integer`. -/
theorem from_integer_saturates (k : Int) (hk : is_raw k) :
    (max_integer < k →
        from_parts k 0 = from_integer k ∧
        from_integer k = shl max_integer fractional_bits ∧
        integer (from_integer k) = max_integer) ∧
      (k < min_integer →
        from_parts k 0 = from_integer k ∧
        from_integer k = ofBits 0x80000000 ∧
        from_integer k = -2 ^ 31 ∧
        integer (from_integer k) = min_integer) := by
  obtain ⟨h1, h2, -, -⟩ := consts_eq
  have h0 : is_raw 0 := by decide
  have hs : shl (2 ^ 15 - 1) fractional_bits = (2 ^ 15 - 1) * 2 ^ 16 := by decide
  have hb : ofBits 0x80000000 = -2 ^ 31 := by decide
  unfold is_raw at hk
  unfold from_integer
  rw [h1, h2, hs, hb, integer_eq, from_parts_closed k 0 hk h0]
  omega

/-- Witness for C3 at k = 32768, k = 2^31 - 1, k = -32769 and the minimum storage value. -/
theorem from_integer_saturates_witness :
    (is_raw 32768 ∧ max_integer < 32768 ∧
        from_integer 32768 = shl max_integer fractional_bits ∧
        integer (from_integer 32768) = max_integer) ∧
      (is_raw (2 ^ 31 - 1) ∧ integer (from_integer (2 ^ 31 - 1)) = max_integer) ∧
      (is_raw (-32769) ∧ -32769 < min_integer ∧
        from_integer (-32769) = ofBits 0x80000000 ∧
        integer (from_integer (-32769)) = min_integer) ∧
      (is_raw (-2 ^ 31) ∧ integer (from_integer (-2 ^ 31)) = min_integer) :=
  ⟨⟨by decide, by decide,
      ((from_integer_saturates 32768 (by decide)).1 (by decide)).2.1,
      ((from_integer_saturates 32768 (by decide)).1 (by decide)).2.2⟩,
    ⟨by decide, ((from_integer_saturates (2 ^ 31 - 1) (by decide)).1 (by decide)).2.2⟩,
    ⟨by decide, by decide,
      ((from_integer_saturates (-32769) (by decide)).2 (by decide)).2.1,
      ((from_integer_saturates (-32769) (by decide)).2 (by decide)).2.2.2⟩,
    ⟨by decide, ((from_integer_saturates (-2 ^ 31) (by decide)).2 (by decide)).2.2.2⟩⟩

/-- C4: non-carrying fractional saturation. For every 32-bit f above `max_fractional`,
`from_parts 0 f` equals `from_parts 0 max_fractional`, which is the raw value 65535, one unit
below `from_integer 1`; its fractional part is `max_fractional` and it differs from
`from_integer 1`. -/
theorem from_parts_fractional_saturates (f : Int) (hf : is_raw f) (h : max_fractional < f) :
    from_parts 0 f = from_parts 0 max_fractional ∧
      from_parts 0 max_fractional = 65535 ∧
      from_parts 0 f = from_integer 1 - 1 ∧
      fractional (from_parts 0 f) = max_fractional ∧
      from_parts 0 f ≠ from_integer 1 := by
  obtain ⟨-, -, h3, -⟩ := consts_eq
  have h0 : is_raw 0 := by decide
  have hm : from_parts 0 (2 ^ 16 - 1) = 65535 := by decide
  have h1 : from_integer 1 = 65536 := by decide
  unfold is_raw at hf
  rw [h3] at h
  rw [h3, hm, h1, fractional_eq, from_parts_closed 0 f h0 hf]
  omega

/-- Witness for C4 at f = 65536, the input of the repository test. -/
theorem from_parts_fractional_saturates_witness :
    is_raw 65536 ∧ max_fractional < 65536 ∧ from_parts 0 65536 = 65535 ∧
      fractional (from_parts 0 65536) = max_fractional ∧
      from_parts 0 65536 ≠ from_integer 1 :=
  ⟨by decide, by decide,
    (from_parts_fractional_saturates 65536 (by decide) (by decide)).1.trans
      (from_parts_fractional_saturates 65536 (by decide) (by decide)).2.1,
    (from_parts_fractional_saturates 65536 (by decide) (by decide)).2.2.2.1,
    (from_parts_fractional_saturates 65536 (by decide) (by decide)).2.2.2.2⟩

/-- C5: negative fractional saturation. For every 32-bit f below `min_fractional`,
`from_parts 0 f` is `1 << 31` read as the storage type, that is the minimum raw value, and
its fractional part is `min_fractional`. -/
theorem from_parts_negative_fractional_saturates (f : Int) (hf : is_raw f)
    (h : f < min_fractional) :
    from_parts 0 f = shl 1 raw_digits ∧
      from_parts 0 f = -2 ^ 31 ∧
      fractional (from_parts 0 f) = min_fractional := by
  obtain ⟨-, -, -, h4⟩ := consts_eq
  have h0 : is_raw 0 := by decide
  have hs : shl 1 raw_digits = -2 ^ 31 := by decide
  unfold is_raw at hf
  rw [h4] at h
  rw [h4, hs, fractional_eq, from_parts_closed 0 f h0 hf]
  omega

/-- Witness for C5 at f = -65537, the input of the repository test, and at the minimum
storage value. -/
theorem from_parts_negative_fractional_saturates_witness :
    (is_raw (-65537) ∧ -65537 < min_fractional ∧ from_parts 0 (-65537) = shl 1 raw_digits ∧
        fractional (from_parts 0 (-65537)) = min_fractional) ∧
      (is_raw (-2 ^ 31) ∧ fractional (from_parts 0 (-2 ^ 31)) = min_fractional) :=
  ⟨⟨by decide, by decide,
      (from_parts_negative_fractional_saturates (-65537) (by decide) (by decide)).1,
      (from_parts_negative_fractional_saturates (-65537) (by decide) (by decide)).2.2⟩,
    ⟨by decide,
      (from_parts_negative_fractional_saturates (-2 ^ 31) (by decide) (by decide)).2.2⟩⟩

/-- C6: mixed-sign rule. For all 32-bit p, q with p positive and q negative, or p negative
and q positive, the integer part of `from_parts p q` is non-positive. -/
theorem from_parts_mixed_sign_integer (p q : Int) (hp : is_raw p) (hq : is_raw q)
    (h : (0 < p ∧ q < 0) ∨ (p < 0 ∧ 0 < q)) :
    integer (from_parts p q) ≤ 0 := by
  unfold is_raw at hp hq
  rw [integer_eq, from_parts_closed p q hp hq]
  omega

/-- Witness for C6 at (5, -3) and (-5, 3). -/
theorem from_parts_mixed_sign_integer_witness :
    (is_raw 5 ∧ is_raw (-3) ∧ integer (from_parts 5 (-3)) ≤ 0) ∧
      (is_raw (-5) ∧ is_raw 3 ∧ integer (from_parts (-5) 3) ≤ 0) :=
  ⟨⟨by decide, by decide,
      from_parts_mixed_sign_integer 5 (-3) (by decide) (by decide) (by decide)⟩,
    ⟨by decide, by decide,
      from_parts_mixed_sign_integer (-5) 3 (by decide) (by decide) (by decide)⟩⟩

/-- C7: mixed-sign saturation. For all 32-bit i, f of strictly opposite sign, both fields of
`from_parts i f` are the negated magnitudes clamped independently at the negative bound:
the integer part is `max (-|i|) min_integer` and the fractional part is
`max (-|f|) min_fractional`. In particular `from_parts max_integer (min_fractional - 1)` has
integer part `-max_integer` and fractional part `min_fractional`, and
`from_parts (min_integer - 1) max_fractional` has integer part `min_integer` and fractional
part `-max_fractional`. -/
theorem from_parts_mixed_sign_saturates (i f : Int) (hi : is_raw i) (hf : is_raw f)
    (h : (0 < i ∧ f < 0) ∨ (i < 0 ∧ 0 < f)) :
    (integer (from_parts i f) = max (-|i|) min_integer ∧
        fractional (from_parts i f) = max (-|f|) min_fractional) ∧
      (integer (from_parts max_integer (min_fractional - 1)) = -max_integer ∧
        fractional (from_parts max_integer (min_fractional - 1)) = min_fractional) ∧
      (integer (from_parts (min_integer - 1) max_fractional) = min_integer ∧
        fractional (from_parts (min_integer - 1) max_fractional) = -max_fractional) := by
  refine ⟨?_, by decide, by decide⟩
  obtain ⟨-, h2, -, h4⟩ := consts_eq
  unfold is_raw at hi hf
  rw [h2, h4, integer_eq, fractional_eq, from_parts_closed i f hi hf]
  rcases h with ⟨h5, h6⟩ | ⟨h5, h6⟩
  · rw [abs_of_pos h5, abs_of_neg h6]
    omega
  · rw [abs_of_neg h5, abs_of_pos h6]
    omega

/-- Witness for C7 at (7, -9) and at (-40000, 70000), where both parts saturate. -/
theorem from_parts_mixed_sign_saturates_witness :
    (is_raw 7 ∧ is_raw (-9) ∧
        integer (from_parts 7 (-9)) = max (-|7|) min_integer ∧
        fractional (from_parts 7 (-9)) = max (-|(-9)|) min_fractional) ∧
      (is_raw (-40000) ∧ is_raw 70000 ∧
        integer (from_parts (-40000) 70000) = max (-|(-40000)|) min_integer ∧
        fractional (from_parts (-40000) 70000) = max (-|70000|) min_fractional) :=
  ⟨⟨by decide, by decide,
      (from_parts_mixed_sign_saturates 7 (-9) (by decide) (by decide) (by decide)).1⟩,
    ⟨by decide, by decide,
      (from_parts_mixed_sign_saturates (-40000) 70000 (by decide) (by decide)
        (by decide)).1⟩⟩

/-- C8: at the non-negative raw value 65536 (the number 1.0) the code returns a negative
fractional part, -65536. -/
theorem fractional_at_one :
    is_raw 65536 ∧ (0 : Int) ≤ 65536 ∧ fractional 65536 = -65536 ∧
      ¬ (0 ≤ fractional 65536) := by
  decide

/-- C9: the extracted parts are within their representable ranges: for every raw value v,
`min_integer ≤ integer v ≤ max_integer` and
`min_fractional ≤ fractional v ≤ max_fractional`. -/
theorem parts_in_range (v : Int) (hv : is_raw v) :
    (min_integer ≤ integer v ∧ integer v ≤ max_integer) ∧
      (min_fractional ≤ fractional v ∧ fractional v ≤ max_fractional) := by
  obtain ⟨h1, h2, h3, h4⟩ := consts_eq
  unfold is_raw at hv
  rw [h1, h2, h3, h4, integer_eq, fractional_eq]
  omega

/-- Witness for C9 at the minimum and the maximum storage value. -/
theorem parts_in_range_witness :
    (is_raw (-2 ^ 31) ∧ min_integer ≤ integer (-2 ^ 31) ∧
        min_fractional ≤ fractional (-2 ^ 31)) ∧
      (is_raw (2 ^ 31 - 1) ∧ integer (2 ^ 31 - 1) ≤ max_integer ∧
        fractional (2 ^ 31 - 1) ≤ max_fractional) :=
  ⟨⟨by decide, (parts_in_range (-2 ^ 31) (by decide)).1.1,
      (parts_in_range (-2 ^ 31) (by decide)).2.1⟩,
    ⟨by decide, (parts_in_range (2 ^ 31 - 1) (by decide)).1.2,
      (parts_in_range (2 ^ 31 - 1) (by decide)).2.2⟩⟩

/-- C10: bit-layout invariant. Every raw value v decomposes exactly as
`integer v * 2^16 + (fractional v mod 2^16)`, the remainder being the non-negative one. -/
theorem raw_decomposition (v : Int) (_hv : is_raw v) :
    v = integer v * 2 ^ 16 + fractional v % 2 ^ 16 := by
  rw [integer_eq, fractional_eq]
  omega

/-- Witness for C10 at the raw value -1 and at 65536. -/
theorem raw_decomposition_witness :
    (is_raw (-1) ∧ (-1 : Int) = integer (-1) * 2 ^ 16 + fractional (-1) % 2 ^ 16) ∧
      (is_raw 65536 ∧ (65536 : Int) = integer 65536 * 2 ^ 16 + fractional 65536 % 2 ^ 16) :=
  ⟨⟨by decide, raw_decomposition (-1) (by decide)⟩,
    ⟨by decide, raw_decomposition 65536 (by decide)⟩⟩

/-- C11: derived constants of the Q16 configuration (digits 31, 16 fractional bits):
`integer_bits` is 15, `max_integer` is 2^15 - 1 = 32767, `min_integer` is
`-max_integer - 1` = -32768, `max_fractional` is 2^16 - 1 = 65535 and `min_fractional` is
`-max_fractional - 1` = -65536. -/
theorem derived_constants :
    raw_digits = 31 ∧ fractional_bits = 16 ∧ integer_bits = 15 ∧
      max_integer = 2 ^ 15 - 1 ∧ max_integer = 32767 ∧
      min_integer = -max_integer - 1 ∧ min_integer = -32768 ∧
      max_fractional = 2 ^ 16 - 1 ∧ max_fractional = 65535 ∧
      min_fractional = -max_fractional - 1 ∧ min_fractional = -65536 := by
  decide

/-- C12: `from_parts` is total and its negations never overflow. For every pair of 32-bit
inputs, a part is negated only when it is non-negative, so never when it is the minimum
storage value, and the negation is then the exact mathematical one; the overflow-checked
`from_parts` always returns, with the value of `from_parts`, which is a raw value. -/
theorem from_parts_negations_exact (i f : Int) (hi : is_raw i) (hf : is_raw f) :
    ((signbit i != from_parts_sign i f) = true → 0 ≤ i ∧ i ≠ -2 ^ 31 ∧ neg i = -i) ∧
      ((signbit f != from_parts_sign i f) = true → 0 ≤ f ∧ f ≠ -2 ^ 31 ∧ neg f = -f) ∧
      from_parts_checked i f = some (from_parts i f) ∧
      is_raw (from_parts i f) := by
  have hr : is_raw (from_parts i f) := by
    have hc := from_parts_closed i f hi hf
    unfold is_raw at hi hf ⊢
    omega
  unfold is_raw at hi hf
  refine ⟨?_, ?_, ?_, hr⟩
  · unfold from_parts_sign signbit neg wrap
    by_cases hin : i < 0 <;> by_cases hfn : f < 0 <;> simp [hin, hfn]
    omega
  · unfold from_parts_sign signbit neg wrap
    by_cases hin : i < 0 <;> by_cases hfn : f < 0 <;> simp [hin, hfn]
    omega
  · have hni : 0 ≤ i → neg_checked i = some (neg i) := by
      intro h0
      unfold neg_checked neg wrap
      rw [if_neg (by omega)]
      congr 1
      omega
    have hnf : 0 ≤ f → neg_checked f = some (neg f) := by
      intro h0
      unfold neg_checked neg wrap
      rw [if_neg (by omega)]
      congr 1
      omega
    unfold from_parts_checked from_parts signbit
    by_cases hin : i < 0 <;> by_cases hfn : f < 0
    · simp only [hin, hfn, decide_True, bne_self_eq_false, Bool.false_eq_true, if_false,
        Option.bind_eq_bind, Option.some_bind]
      split_ifs <;> rfl
    · simp only [hin, hfn, hnf (by omega), decide_True, decide_False, Bool.true_bne,
        Bool.not_false, if_true, bne_self_eq_false, Bool.false_eq_true, if_false,
        Option.bind_eq_bind, Option.some_bind]
      split_ifs <;> rfl
    · simp only [hin, hfn, hni (by omega), decide_True, decide_False, Bool.false_bne,
        Bool.true_bne, Bool.not_false, if_true, bne_self_eq_false, Bool.false_eq_true,
        if_false, Option.bind_eq_bind, Option.some_bind]
      split_ifs <;> rfl
    · simp only [hin, hfn, decide_False, bne_self_eq_false, Bool.false_eq_true, if_false,
        Option.bind_eq_bind, Option.some_bind]
      split_ifs <;> rfl

/-- Witness for C12 at (5, -3), where the integer part is negated, and at the minimum
storage value in either position. -/
theorem from_parts_negations_exact_witness :
    (is_raw 5 ∧ is_raw (-3) ∧ (signbit 5 != from_parts_sign 5 (-3)) = true ∧
        neg 5 = -5 ∧ from_parts_checked 5 (-3) = some (from_parts 5 (-3))) ∧
      (is_raw (-2 ^ 31) ∧ is_raw 7 ∧
        from_parts_checked (-2 ^ 31) 7 = some (from_parts (-2 ^ 31) 7)) ∧
      (is_raw 7 ∧ is_raw (-2 ^ 31) ∧
        from_parts_checked 7 (-2 ^ 31) = some (from_parts 7 (-2 ^ 31))) :=
  ⟨⟨by decide, by decide, by decide,
      ((from_parts_negations_exact 5 (-3) (by decide) (by decide)).1 (by decide)).2.2,
      (from_parts_negations_exact 5 (-3) (by decide) (by decide)).2.2.1⟩,
    ⟨by decide, by decide,
      (from_parts_negations_exact (-2 ^ 31) 7 (by decide) (by decide)).2.2.1⟩,
    ⟨by decide, by decide,
      (from_parts_negations_exact 7 (-2 ^ 31) (by decide) (by decide)).2.2.1⟩⟩

/-- C13: saturating addition. For all raw values a, b, `sadd a b` is the exact sum `a + b`
clamped to `[min_raw, max_raw]`, hence a raw value; in particular
`sadd max_raw 1 = max_raw`. -/
theorem sadd_clamps (a b : Int) (_ha : is_raw a) (_hb : is_raw b) :
    sadd a b = max min_raw (min max_raw (a + b)) ∧
      is_raw (sadd a b) ∧
      sadd max_raw 1 = max_raw := by
  refine ⟨?_, ?_, by decide⟩
  · unfold sadd max_raw min_raw
    simp only
    split_ifs <;> omega
  · unfold sadd max_raw min_raw is_raw
    simp only
    split_ifs <;> omega

/-- Witness for C13 at (2^31 - 1, 2^31 - 1) and (-2^31, -1), where the sum leaves the
storage range, and at (3, 4). -/
theorem sadd_clamps_witness :
    (is_raw (2 ^ 31 - 1) ∧
        sadd (2 ^ 31 - 1) (2 ^ 31 - 1) = max min_raw (min max_raw (2 ^ 31 - 1 + (2 ^ 31 - 1)))) ∧
      (is_raw (-2 ^ 31) ∧ is_raw (-1) ∧
        sadd (-2 ^ 31) (-1) = max min_raw (min max_raw (-2 ^ 31 + -1))) ∧
      (is_raw 3 ∧ is_raw 4 ∧ sadd 3 4 = max min_raw (min max_raw (3 + 4))) :=
  ⟨⟨by decide, (sadd_clamps (2 ^ 31 - 1) (2 ^ 31 - 1) (by decide) (by decide)).1⟩,
    ⟨by decide, by decide, (sadd_clamps (-2 ^ 31) (-1) (by decide) (by decide)).1⟩,
    ⟨by decide, by decide, (sadd_clamps 3 4 (by decide) (by decide)).1⟩⟩

/-- C14: configuration validity. A signed storage type of width w with f fractional bits is
accepted exactly when `integer_bits = digits - f` is at least 1, that is exactly when
f < w - 1: every configuration with f ≥ w - 1 is rejected and every one with f < w - 1 is
accepted. The Q16 configuration (32, 16) is accepted with 15 integer bits. -/
theorem config_accepted_iff (w f : Nat) :
    (config_accepted w f = true ↔ integer_bits_of w f ≥ 1) ∧
      (config_accepted w f = true ↔ (f : Int) < (w : Int) - 1) ∧
      ((w : Int) - 1 ≤ (f : Int) → config_accepted w f = false) ∧
      ((f : Int) < (w : Int) - 1 → config_accepted w f = true) ∧
      (config_accepted 32 16 = true ∧ integer_bits_of 32 16 = (integer_bits : Int)) := by
  have h1 : config_accepted w f = true ↔ integer_bits_of w f ≥ 1 := by
    unfold config_accepted
    exact decide_eq_true_iff
  have h2 : integer_bits_of w f ≥ 1 ↔ (f : Int) < (w : Int) - 1 := by
    unfold integer_bits_of digits_of
    omega
  refine ⟨h1, h1.trans h2, ?_, fun h => (h1.trans h2).2 h, by decide⟩
  intro h
  cases hc : config_accepted w f
  · rfl
  · have := (h1.trans h2).1 hc
    omega

/-- Witness for C14 at (32, 16) and (32, 30), accepted, and at (32, 31) and (8, 200),
rejected. -/
theorem config_accepted_iff_witness :
    config_accepted 32 16 = true ∧ config_accepted 32 30 = true ∧
      config_accepted 32 31 = false ∧ config_accepted 8 200 = false :=
  ⟨(config_accepted_iff 32 16).2.2.2.1 (by decide),
    (config_accepted_iff 32 30).2.2.2.1 (by decide),
    (config_accepted_iff 32 31).2.2.1 (by decide),
    (config_accepted_iff 8 200).2.2.1 (by decide)⟩

/-- C15: independent clamping for non-negative parts. For all 32-bit i ≥ 0 and f ≥ 0,
`from_parts i f` is `min i max_integer * 2^16 + min f max_fractional`: the fractional clamp
does not carry into the integer field. -/
theorem from_parts_nonneg (i f : Int) (hi : is_raw i) (hf : is_raw f)
    (hi0 : 0 ≤ i) (hf0 : 0 ≤ f) :
    from_parts i f = min i max_integer * 2 ^ 16 + min f max_fractional ∧
      integer (from_parts i f) = min i max_integer := by
  obtain ⟨h1, -, h3, -⟩ := consts_eq
  unfold is_raw at hi hf
  rw [h1, h3, integer_eq, from_parts_closed i f hi hf]
  omega

/-- Witness for C15 at (3, 70000), where only the fractional part saturates, and at
(40000, 5). -/
theorem from_parts_nonneg_witness :
    (is_raw 3 ∧ is_raw 70000 ∧
        from_parts 3 70000 = min 3 max_integer * 2 ^ 16 + min 70000 max_fractional ∧
        integer (from_parts 3 70000) = min 3 max_integer) ∧
      (is_raw 40000 ∧ is_raw 5 ∧
        from_parts 40000 5 = min 40000 max_integer * 2 ^ 16 + min 5 max_fractional) :=
  ⟨⟨by decide, by decide,
      (from_parts_nonneg 3 70000 (by decide) (by decide) (by decide) (by decide)).1,
      (from_parts_nonneg 3 70000 (by decide) (by decide) (by decide) (by decide)).2⟩,
    ⟨by decide, by decide,
      (from_parts_nonneg 40000 5 (by decide) (by decide) (by decide) (by decide)).1⟩⟩

/-- C16: exact domain of the round trip. For every raw value v,
`from_parts (integer v) (fractional v) = v` holds if and only if it is not the case that
v ≥ 0 and bit 16 of v, the lowest integer bit, is set: it holds for every negative v and for
every non-negative v with an even integer part, and fails for every non-negative v with an
odd integer part. -/
theorem round_trip_iff (v : Int) (hv : is_raw v) :
    (from_parts (integer v) (fractional v) = v ↔
        ¬ (0 ≤ v ∧ (toBits v).testBit 16 = true)) ∧
      (v < 0 → from_parts (integer v) (fractional v) = v) ∧
      (0 ≤ v → integer v % 2 = 0 → from_parts (integer v) (fractional v) = v) ∧
      (0 ≤ v → integer v % 2 = 1 → from_parts (integer v) (fractional v) ≠ v) := by
  unfold is_raw at hv
  have hi := integer_eq v
  have hf := fractional_eq v
  have hc := from_parts_closed (integer v) (fractional v)
    (by unfold is_raw; omega) (by unfold is_raw; omega)
  rw [testBit_sixteen]
  omega

/-- Witness for C16 at the raw values -1, 131072 (integer part 2) and 65536 (integer
part 1). -/
theorem round_trip_iff_witness :
    (is_raw (-1) ∧ from_parts (integer (-1)) (fractional (-1)) = -1) ∧
      (is_raw 131072 ∧ from_parts (integer 131072) (fractional 131072) = 131072) ∧
      (is_raw 65536 ∧ from_parts (integer 65536) (fractional 65536) ≠ 65536) :=
  ⟨⟨by decide, (round_trip_iff (-1) (by decide)).2.1 (by decide)⟩,
    ⟨by decide, (round_trip_iff 131072 (by decide)).2.2.1 (by decide) (by decide)⟩,
    ⟨by decide, (round_trip_iff 65536 (by decide)).2.2.2 (by decide) (by decide)⟩⟩

/-- C17: closed form of `fractional`. The left shift is by `integer_bits` = 15, so bit 16
of v lands in the sign position: for every raw value v, `fractional v` is
`v mod 2^16 - 2^16` when v < 0 or bit 16 of v is set, and `v mod 2^16` otherwise, mod being
the non-negative remainder. -/
theorem fractional_closed_form (v : Int) (_hv : is_raw v) :
    integer_bits = 15 ∧
      fractional v =
        if v < 0 ∨ (toBits v).testBit 16 = true then v % 2 ^ 16 - 2 ^ 16 else v % 2 ^ 16 := by
  refine ⟨rfl, ?_⟩
  rw [fractional_eq]
  simp only [testBit_sixteen]

/-- Witness for C17 at the raw values 98304 (1.5, bit 16 set), 32768 (0.5) and -32768. -/
theorem fractional_closed_form_witness :
    (is_raw 98304 ∧ fractional 98304 =
        if (98304 : Int) < 0 ∨ (toBits 98304).testBit 16 = true
        then 98304 % 2 ^ 16 - 2 ^ 16 else 98304 % 2 ^ 16) ∧
      (is_raw 32768 ∧ fractional 32768 =
        if (32768 : Int) < 0 ∨ (toBits 32768).testBit 16 = true
        then 32768 % 2 ^ 16 - 2 ^ 16 else 32768 % 2 ^ 16) ∧
      (is_raw (-32768) ∧ fractional (-32768) =
        if (-32768 : Int) < 0 ∨ (toBits (-32768)).testBit 16 = true
        then -32768 % 2 ^ 16 - 2 ^ 16 else -32768 % 2 ^ 16) :=
  ⟨⟨by decide, (fractional_closed_form 98304 (by decide)).2⟩,
    ⟨by decide, (fractional_closed_form 32768 (by decide)).2⟩,
    ⟨by decide, (fractional_closed_form (-32768) (by decide)).2⟩⟩

/-- C18: a zero integer part with a negative fractional part lands at the bottom of the
integer range: for every 32-bit f < 0, the integer part of `from_parts 0 f` is
`min_integer`, that is -32768. -/
theorem from_parts_zero_negative (f : Int) (hf : is_raw f) (hneg : f < 0) :
    integer (from_parts 0 f) = min_integer ∧ min_integer = -32768 := by
  obtain ⟨-, h2, -, -⟩ := consts_eq
  have h0 : is_raw 0 := by decide
  unfold is_raw at hf
  rw [h2, integer_eq, from_parts_closed 0 f h0 hf]
  omega

/-- Witness for C18 at f = -1. -/
theorem from_parts_zero_negative_witness :
    is_raw (-1) ∧ integer (from_parts 0 (-1)) = min_integer :=
  ⟨by decide, (from_parts_zero_negative (-1) (by decide) (by decide)).1⟩

/-- C19: sign of the constructed value. For all 32-bit i, f, the raw value `from_parts i f`
is negative if and only if i < 0 or f < 0, and so non-negative exactly when both parts are
non-negative. -/
theorem from_parts_neg_iff (i f : Int) (hi : is_raw i) (hf : is_raw f) :
    (from_parts i f < 0 ↔ i < 0 ∨ f < 0) ∧
      (0 ≤ from_parts i f ↔ 0 ≤ i ∧ 0 ≤ f) := by
  unfold is_raw at hi hf
  rw [from_parts_closed i f hi hf]
  omega

/-- Witness for C19 at (0, -1), (-1, 0) and (2, 3). -/
theorem from_parts_neg_iff_witness :
    (is_raw 0 ∧ is_raw (-1) ∧ from_parts 0 (-1) < 0) ∧
      (from_parts (-1) 0 < 0) ∧
      (is_raw 2 ∧ is_raw 3 ∧ 0 ≤ from_parts 2 3) :=
  ⟨⟨by decide, by decide,
      (from_parts_neg_iff 0 (-1) (by decide) (by decide)).1.2 (by decide)⟩,
    (from_parts_neg_iff (-1) 0 (by decide) (by decide)).1.2 (by decide),
    ⟨by decide, by decide,
      (from_parts_neg_iff 2 3 (by decide) (by decide)).2.2 (by decide)⟩⟩

/-- C20: read-back of two negative parts. For all 32-bit i < 0 and f < 0, the value
`r = from_parts i f` has integer part `max i min_integer` and fractional part
`max f min_fractional`, and its raw value is
`max i min_integer * 2^16 + max f min_fractional + 2^16`; so `from_parts (-1) (-1)` is the
raw value -1. -/
theorem from_parts_both_negative (i f : Int) (hi : is_raw i) (hf : is_raw f)
    (hin : i < 0) (hfn : f < 0) :
    integer (from_parts i f) = max i min_integer ∧
      fractional (from_parts i f) = max f min_fractional ∧
      from_parts i f = max i min_integer * 2 ^ 16 + max f min_fractional + 2 ^ 16 ∧
      from_parts (-1) (-1) = -1 := by
  obtain ⟨-, h2, -, h4⟩ := consts_eq
  unfold is_raw at hi hf
  refine ⟨?_, ?_, ?_, by decide⟩
  · rw [h2, integer_eq, from_parts_closed i f hi hf]
    omega
  · rw [h4, fractional_eq, from_parts_closed i f hi hf]
    omega
  · rw [h2, h4, from_parts_closed i f hi hf]
    omega

/-- Witness for C20 at (-3, -5) and at (-40000, -70000), where both parts saturate. -/
theorem from_parts_both_negative_witness :
    (is_raw (-3) ∧ is_raw (-5) ∧
        integer (from_parts (-3) (-5)) = max (-3) min_integer ∧
        fractional (from_parts (-3) (-5)) = max (-5) min_fractional) ∧
      (is_raw (-40000) ∧ is_raw (-70000) ∧
        from_parts (-40000) (-70000) =
          max (-40000) min_integer * 2 ^ 16 + max (-70000) min_fractional + 2 ^ 16) :=
  ⟨⟨by decide, by decide,
      (from_parts_both_negative (-3) (-5) (by decide) (by decide) (by decide)
        (by decide)).1,
      (from_parts_both_negative (-3) (-5) (by decide) (by decide) (by decide)
        (by decide)).2.1⟩,
    ⟨by decide, by decide,
      (from_parts_both_negative (-40000) (-70000) (by decide) (by decide) (by decide)
        (by decide)).2.2.1⟩⟩

end gfxlib
